import Mathlib

/-!
Verification development for a small student-records HTTP service
(`src/main.py`): CRUD handlers over a single `Student` table plus a file
upload endpoint.  The handlers are embedded shallowly: the JSON request
body becomes an association list of `Json` values, the SQLite-backed
table becomes a list of rows, and each Flask handler becomes a function
from the request and the current table to a result (tagged with its HTTP
status code) and the new table.
-/

/-- A JSON value as far as the service needs: the handlers only ever move
values between the request body, the table and the response, so `null`,
strings and numbers suffice. -/
inductive Json where
  | null : Json
  | str : String → Json
  | num : Rat → Json
deriving DecidableEq, Repr

/-- A calendar date, the result of `datetime.strptime(s, "%Y-%m-%d").date()`. -/
structure Date where
  year : Nat
  month : Nat
  day : Nat
deriving DecidableEq, Repr

/-- Proleptic-Gregorian leap year rule, as used by Python `datetime`. -/
def isLeapYear (y : Nat) : Bool :=
  (y % 4 == 0 && y % 100 != 0) || y % 400 == 0

/-- Number of days in a month, as validated by the `datetime.date` constructor. -/
def daysInMonth (y m : Nat) : Nat :=
  if m = 2 then (if isLeapYear y then 29 else 28)
  else if m = 4 ∨ m = 6 ∨ m = 9 ∨ m = 11 then 30
  else 31

/-- Numeric value of an ASCII digit character. -/
def digitVal (c : Char) : Nat := c.toNat - 48

/-- Value of a digit string, most significant digit first (Python `int`). -/
def digitsVal (l : List Char) : Nat := l.foldl (fun a c => a * 10 + digitVal c) 0

/-- Assemble a date from the year/month/day digit groups matched out of the
input string, applying the range checks `strptime`'s regular expressions and
the `datetime.date` constructor perform: month 1-12, day 1-31 and within the
month, year at least 1 (`MINYEAR`). -/
def mkDate (ys ms ds : List Char) : Option Date :=
  if (ys ++ ms ++ ds).all Char.isDigit then
    if 1 ≤ digitsVal ys ∧ 1 ≤ digitsVal ms ∧ digitsVal ms ≤ 12 ∧ 1 ≤ digitsVal ds ∧
        digitsVal ds ≤ daysInMonth (digitsVal ys) (digitsVal ms) then
      some ⟨digitsVal ys, digitsVal ms, digitsVal ds⟩
    else none
  else none

/-- Embedding of `datetime.strptime(s, "%Y-%m-%d").date()`: the year is
exactly four digits, month and day one or two digits each, separated by
literal dashes, the whole string consumed; unparseable input is `none`
(Python raises `ValueError`). -/
def parseDate (s : String) : Option Date :=
  match s.data with
  | [a, b, c, d, '-', m, '-', e] => mkDate [a, b, c, d] [m] [e]
  | [a, b, c, d, '-', m, '-', e, f] => mkDate [a, b, c, d] [m] [e, f]
  | [a, b, c, d, '-', m, n, '-', e] => mkDate [a, b, c, d] [m, n] [e]
  | [a, b, c, d, '-', m, n, '-', e, f] => mkDate [a, b, c, d] [m, n] [e, f]
  | _ => none

/-- The ASCII character for a digit value. -/
def digitChar (n : Nat) : Char := Char.ofNat (48 + n)

/-- Embedding of `date.isoformat()` for years up to 9999: zero-padded
`YYYY-MM-DD`. -/
def dateIso (d : Date) : String :=
  String.mk [digitChar (d.year / 1000 % 10), digitChar (d.year / 100 % 10),
    digitChar (d.year / 10 % 10), digitChar (d.year % 10), '-',
    digitChar (d.month / 10 % 10), digitChar (d.month % 10), '-',
    digitChar (d.day / 10 % 10), digitChar (d.day % 10)]

/-- A row of the `student` table.  `student_id` is the integer primary key;
`dob` is a `Date` column so only parsed dates can be stored; the remaining
columns hold whatever JSON value the handler assigned (SQLAlchemy performs
no type validation before the INSERT/UPDATE). -/
structure Student where
  student_id : Nat
  first_name : Json
  last_name : Json
  dob : Date
  amount_due : Json
deriving DecidableEq, Repr

/-- Serialization `Student.to_dict`: a row back to JSON, `dob` via `isoformat`. -/
def Student.to_dict (s : Student) : List (String × Json) :=
  [("student_id", Json.num (s.student_id : Rat)),
   ("first_name", s.first_name),
   ("last_name", s.last_name),
   ("dob", Json.str (dateIso s.dob)),
   ("amount_due", s.amount_due)]

/-- The student table: a list of rows. -/
abbrev Store := List Student

/-- A parsed JSON request body: an object, as an association list. -/
abbrev Payload := List (String × Json)

/-- SQLite's rowid assignment for an `INTEGER PRIMARY KEY` column without
`AUTOINCREMENT`: one more than the largest id in the table (1 on an empty
table). -/
def freshId (st : Store) : Nat :=
  (st.map Student.student_id).foldr max 0 + 1

/-- Membership test `'k' in data` on the request body's dict. -/
def hasKey (data : Payload) (k : String) : Bool := (data.lookup k).isSome

/-- Result of `POST /students`. -/
inductive CreateRes where
  | missingField
  | invalidDate
  | storeError
  | created (s : Student)
deriving DecidableEq, Repr

/-- HTTP status code of each create outcome. -/
def CreateRes.status : CreateRes → Nat
  | .missingField => 400
  | .invalidDate => 400
  | .storeError => 500
  | .created _ => 201

/-- Embedding of `create_student` (`POST /students`).  `body = none` models
a request carrying no JSON object.  Mirrors the handler: `not data or` any
of the four keys absent gives 400; a non-string `dob` makes `strptime`
raise `TypeError`, caught by the catch-all `except Exception` as 500; an
unparseable `dob` string raises `ValueError`, 400; a `null` in a
`nullable=False` column makes `commit` raise `IntegrityError`, 500; a
failed request leaves the table unchanged (the transaction never commits). -/
def create_student (body : Option Payload) (st : Store) : CreateRes × Store :=
  match body with
  | none => (.missingField, st)
  | some data =>
    if data.isEmpty ∨ ¬ hasKey data "first_name" ∨ ¬ hasKey data "last_name" ∨
        ¬ hasKey data "dob" ∨ ¬ hasKey data "amount_due" then
      (.missingField, st)
    else
      match data.lookup "dob" with
      | some (Json.str ds) =>
        match parseDate ds with
        | none => (.invalidDate, st)
        | some d =>
          let fn := (data.lookup "first_name").getD Json.null
          let ln := (data.lookup "last_name").getD Json.null
          let ad := (data.lookup "amount_due").getD Json.null
          if fn = Json.null ∨ ln = Json.null ∨ ad = Json.null then (.storeError, st)
          else
            let s : Student := ⟨freshId st, fn, ln, d, ad⟩
            (.created s, st ++ [s])
      | _ => (.storeError, st)

/-- Embedding of `get_students` (`GET /students`): every row serialized,
always HTTP 200. -/
def get_students (st : Store) : List (List (String × Json)) :=
  st.map Student.to_dict

/-- Result of `GET /students/<id>`. -/
inductive GetRes where
  | notFound
  | found (s : Student)
deriving DecidableEq, Repr

/-- HTTP status code of each get outcome. -/
def GetRes.status : GetRes → Nat
  | .notFound => 404
  | .found _ => 200

/-- Embedding of `get_student` (`GET /students/<id>`): `Student.query.get`
is primary-key lookup. -/
def get_student (sid : Nat) (st : Store) : GetRes :=
  match st.find? (fun s => s.student_id == sid) with
  | some s => .found s
  | none => .notFound

/-- Result of `PUT /students/<id>`. -/
inductive UpdateRes where
  | notFound
  | noInput
  | invalidDate
  | storeError
  | updated (s : Student)
deriving DecidableEq, Repr

/-- HTTP status code of each update outcome. -/
def UpdateRes.status : UpdateRes → Nat
  | .notFound => 404
  | .noInput => 400
  | .invalidDate => 400
  | .storeError => 500
  | .updated _ => 200

/-- The `if 'dob' in data` step of the update handler: absent leaves the
row alone; a string is re-parsed, `ValueError` giving 400; a non-string
makes `strptime` raise `TypeError`, caught as 500. -/
def applyDob (data : Payload) (s : Student) : Except UpdateRes Student :=
  match data.lookup "dob" with
  | none => .ok s
  | some (Json.str ds) =>
    match parseDate ds with
    | some d => .ok { s with dob := d }
    | none => .error .invalidDate
  | some _ => .error .storeError

/-- The `db.session.commit()` of the update handler: persisting row `s4`
under primary key `sid` raises `IntegrityError` (500) if a `nullable=False`
column was set to `null`, and otherwise issues
`UPDATE student SET ... WHERE student_id = sid`. -/
def commitRow (sid : Nat) (s4 : Student) (st : Store) : UpdateRes × Store :=
  if s4.first_name = Json.null ∨ s4.last_name = Json.null ∨
      s4.amount_due = Json.null then
    (.storeError, st)
  else
    (.updated s4, st.map (fun t => if t.student_id == sid then s4 else t))

/-- Embedding of `update_student` (`PUT /students/<id>`).  Missing id gives
404 before the body is read; `not data` gives 400; then each of the four
keys is applied if present (`Option.getD` keeps the old value when the key
is absent), in source order: `first_name`, `last_name`, `dob` (where
parsing may fail), `amount_due`; a failure before `commit` leaves the
table unchanged (the session is rolled back at request end). -/
def update_student (sid : Nat) (body : Option Payload) (st : Store) :
    UpdateRes × Store :=
  match st.find? (fun s => s.student_id == sid) with
  | none => (.notFound, st)
  | some s =>
    match body with
    | none => (.noInput, st)
    | some data =>
      if data.isEmpty then (.noInput, st)
      else
        match applyDob data { s with
            first_name := (data.lookup "first_name").getD s.first_name,
            last_name := (data.lookup "last_name").getD s.last_name } with
        | .error e => (e, st)
        | .ok s3 =>
          commitRow sid
            { s3 with amount_due := (data.lookup "amount_due").getD s3.amount_due } st

/-- Result of `DELETE /students/<id>`. -/
inductive DeleteRes where
  | notFound
  | deleted
deriving DecidableEq, Repr

/-- HTTP status code of each delete outcome. -/
def DeleteRes.status : DeleteRes → Nat
  | .notFound => 404
  | .deleted => 200

/-- Embedding of `delete_student` (`DELETE /students/<id>`): 404 if the id
is absent, otherwise `DELETE FROM student WHERE student_id = sid`. -/
def delete_student (sid : Nat) (st : Store) : DeleteRes × Store :=
  match st.find? (fun s => s.student_id == sid) with
  | none => (.notFound, st)
  | some _ => (.deleted, st.filter (fun s => !(s.student_id == sid)))

/-- The multipart `file` field of an upload request: the client-supplied
filename and the file's bytes. -/
structure FilePart where
  filename : String
  content : List Nat
deriving DecidableEq, Repr

/-- The extension whitelist of `allowed_file`. -/
def ALLOWED_EXTENSIONS : List String := ["png", "jpg", "jpeg", "gif"]

/-- Python `filename.rsplit('.', 1)[1]` when a dot is present: the substring after
the last dot (the whole string when no dot is present). -/
def extAfterLastDot (f : String) : String :=
  String.mk ((f.data.reverse.takeWhile (fun c => c != '.')).reverse)

/-- ASCII lower-casing of one character, as Python `str.lower` acts on the
extensions at issue. -/
def lowerChar (c : Char) : Char :=
  if 65 ≤ c.toNat ∧ c.toNat ≤ 90 then Char.ofNat (c.toNat + 32) else c

/-- ASCII lower-casing of a string. -/
def lowerStr (s : String) : String := String.mk (s.data.map lowerChar)

/-- Embedding of `allowed_file`: a dot is present and the lower-cased
substring after the last dot is whitelisted. -/
def allowed_file (filename : String) : Bool :=
  filename.data.contains '.' &&
    ALLOWED_EXTENSIONS.contains (lowerStr (extAfterLastDot filename))

/-- POSIX `os.path.join` for two components: an absolute second component
discards the first. -/
def path_join (a b : String) : String :=
  if b.data.head? = some '/' then b
  else if a = "" ∨ a.data.getLast? = some '/' then a ++ b
  else a ++ "/" ++ b

/-- Result of `POST /upload`: `saved path content` records the filesystem
write the handler performs. -/
inductive UploadRes where
  | noFilePart
  | noFilename
  | invalidType
  | saved (path : String) (content : List Nat)
deriving DecidableEq, Repr

/-- HTTP status code of each upload outcome. -/
def UploadRes.status : UploadRes → Nat
  | .noFilePart => 400
  | .noFilename => 400
  | .invalidType => 400
  | .saved _ _ => 200

/-- Embedding of `upload_file` (`POST /upload`).  `req = none` models a
request without a `file` field.  An empty filename is rejected before the
extension check; an accepted file is written to
`os.path.join('uploads', filename)`. -/
def upload_file (req : Option FilePart) : UploadRes :=
  match req with
  | none => .noFilePart
  | some file =>
    if file.filename = "" then .noFilename
    else if allowed_file file.filename then
      .saved (path_join "uploads" file.filename) file.content
    else .invalidType

/-- A date produced by `parseDate` satisfies all the calendar range checks. -/
def ValidDate (d : Date) : Prop :=
  1 ≤ d.year ∧ d.year ≤ 9999 ∧ 1 ≤ d.month ∧ d.month ≤ 12 ∧
  1 ≤ d.day ∧ d.day ≤ daysInMonth d.year d.month

instance (d : Date) : Decidable (ValidDate d) := by
  unfold ValidDate
  infer_instance

/-- The specification's reading of "the filename's extension": the
substring after the last dot, i.e. a dot-free suffix preceded by a dot. -/
def ExtOf (f ext : String) : Prop :=
  ∃ pre : String, f = pre ++ "." ++ ext ∧ ext.data.contains '.' = false

/-- Primary-key uniqueness over the table. -/
def UniqueIds (st : Store) : Prop := (st.map Student.student_id).Nodup

/-- What the code actually enforces of a stored row: the `nullable=False`
columns are non-null and the stored date passed the parser's range checks. -/
def RowOk (s : Student) : Prop :=
  s.first_name ≠ Json.null ∧ s.last_name ≠ Json.null ∧
  s.amount_due ≠ Json.null ∧ ValidDate s.dob

/-- The table invariant. -/
def StoreInv (st : Store) : Prop := UniqueIds st ∧ ∀ s ∈ st, RowOk s

instance (st : Store) : Decidable (UniqueIds st) := by
  unfold UniqueIds
  infer_instance

instance (s : Student) : Decidable (RowOk s) := by
  unfold RowOk
  infer_instance

instance (st : Store) : Decidable (StoreInv st) := by
  unfold StoreInv
  infer_instance

/-- All dates stored in the table passed the parser's range checks. -/
def DobsValid (st : Store) : Prop := ∀ s ∈ st, ValidDate s.dob

instance (st : Store) : Decidable (DobsValid st) := by
  unfold DobsValid
  infer_instance

/-- An entry returned by List round-trips a creation payload: the four
non-id fields compare equal, `dob` as the very same string. -/
def RoundTrips (e : List (String × Json)) (p : Payload) : Prop :=
  e.lookup "first_name" = p.lookup "first_name" ∧
  e.lookup "last_name" = p.lookup "last_name" ∧
  e.lookup "dob" = p.lookup "dob" ∧
  e.lookup "amount_due" = p.lookup "amount_due"

/-- A creation payload that create accepts: the four keys present with
non-null values and a parseable zero-padded `YYYY-MM-DD` dob string. -/
def GoodCreate (data : Payload) : Prop :=
  (∃ ds d, data.lookup "dob" = some (Json.str ds) ∧ parseDate ds = some d ∧
    ds.length = 10) ∧
  (∃ v, data.lookup "first_name" = some v ∧ v ≠ Json.null) ∧
  (∃ v, data.lookup "last_name" = some v ∧ v ≠ Json.null) ∧
  (∃ v, data.lookup "amount_due" = some v ∧ v ≠ Json.null)

/-- N consecutive `POST /students` requests. -/
def createMany (ps : List Payload) (st : Store) : Store :=
  ps.foldl (fun acc p => (create_student (some p) acc).snd) st

/-! ### Helper lemmas -/

theorem string_mk_data (s : String) : String.mk s.data = s := by
  cases s
  rfl

theorem char_digit_bounds (c : Char) (h : c.isDigit = true) :
    48 ≤ c.toNat ∧ c.toNat ≤ 57 := by
  simp [Char.isDigit] at h
  obtain ⟨h1, h2⟩ := h
  rw [UInt32.le_def] at h1 h2
  exact ⟨h1, h2⟩

theorem digitVal_le (c : Char) (h : c.isDigit = true) : digitVal c ≤ 9 := by
  obtain ⟨h1, h2⟩ := char_digit_bounds c h
  unfold digitVal
  omega

theorem digitChar_digitVal (c : Char) (h : c.isDigit = true) :
    digitChar (digitVal c) = c := by
  obtain ⟨h1, h2⟩ := char_digit_bounds c h
  have h48 : 48 + digitVal c = c.toNat := by
    unfold digitVal
    omega
  unfold digitChar
  rw [h48]
  unfold Char.ofNat
  have hv : c.toNat.isValidChar := by
    constructor
    omega
  rw [dif_pos hv]
  apply Char.ext
  simp [Char.ofNatAux, Char.toNat]
  apply UInt32.eq_of_toBitVec_eq
  simp [UInt32.toNat]
  apply BitVec.eq_of_toNat_eq
  simp

theorem mkDate_eq (ys ms ds : List Char) (dt : Date) (h : mkDate ys ms ds = some dt) :
    (∀ c ∈ ys ++ ms ++ ds, c.isDigit = true) ∧
    dt = ⟨digitsVal ys, digitsVal ms, digitsVal ds⟩ ∧
    1 ≤ dt.year ∧ 1 ≤ dt.month ∧ dt.month ≤ 12 ∧ 1 ≤ dt.day ∧
    dt.day ≤ daysInMonth dt.year dt.month := by
  unfold mkDate at h
  split at h
  · rename_i hall
    split at h
    · rename_i hrange
      injection h with h'
      subst h'
      obtain ⟨hy, hm1, hm2, hd1, hd2⟩ := hrange
      exact ⟨fun c hc => List.all_eq_true.mp hall c hc, rfl, hy, hm1, hm2, hd1, hd2⟩
    · exact absurd h (by simp)
  · exact absurd h (by simp)

theorem valid_of_mkDate (a b c d : Char) (ms ds : List Char) (dt : Date)
    (h : mkDate [a, b, c, d] ms ds = some dt) : ValidDate dt := by
  obtain ⟨hall, hdt, hy, hm1, hm2, hd1, hd2⟩ := mkDate_eq _ _ _ _ h
  have ha : a.isDigit = true := hall a (by simp)
  have hb : b.isDigit = true := hall b (by simp)
  have hc : c.isDigit = true := hall c (by simp)
  have hd : d.isDigit = true := hall d (by simp)
  refine ⟨hy, ?_, hm1, hm2, hd1, hd2⟩
  subst hdt
  show digitsVal [a, b, c, d] ≤ 9999
  have hyv : digitsVal [a, b, c, d] =
      ((digitVal a * 10 + digitVal b) * 10 + digitVal c) * 10 + digitVal d := by
    simp [digitsVal]
  have h1 := digitVal_le a ha
  have h2 := digitVal_le b hb
  have h3 := digitVal_le c hc
  have h4 := digitVal_le d hd
  omega

theorem dateIso_of_digits (a b c d m n e f : Char)
    (ha : a.isDigit = true) (hb : b.isDigit = true) (hc : c.isDigit = true)
    (hd : d.isDigit = true) (hm : m.isDigit = true) (hn : n.isDigit = true)
    (he : e.isDigit = true) (hf : f.isDigit = true) :
    dateIso ⟨digitsVal [a, b, c, d], digitsVal [m, n], digitsVal [e, f]⟩ =
      String.mk [a, b, c, d, '-', m, n, '-', e, f] := by
  have hyv : digitsVal [a, b, c, d] =
      ((digitVal a * 10 + digitVal b) * 10 + digitVal c) * 10 + digitVal d := by
    simp [digitsVal]
  have hmv : digitsVal [m, n] = digitVal m * 10 + digitVal n := by simp [digitsVal]
  have hev : digitsVal [e, f] = digitVal e * 10 + digitVal f := by simp [digitsVal]
  have l1 := digitVal_le a ha
  have l2 := digitVal_le b hb
  have l3 := digitVal_le c hc
  have l4 := digitVal_le d hd
  have l5 := digitVal_le m hm
  have l6 := digitVal_le n hn
  have l7 := digitVal_le e he
  have l8 := digitVal_le f hf
  have ea : digitsVal [a, b, c, d] / 1000 % 10 = digitVal a := by rw [hyv]; omega
  have eb : digitsVal [a, b, c, d] / 100 % 10 = digitVal b := by rw [hyv]; omega
  have ec : digitsVal [a, b, c, d] / 10 % 10 = digitVal c := by rw [hyv]; omega
  have ed : digitsVal [a, b, c, d] % 10 = digitVal d := by rw [hyv]; omega
  have em : digitsVal [m, n] / 10 % 10 = digitVal m := by rw [hmv]; omega
  have en : digitsVal [m, n] % 10 = digitVal n := by rw [hmv]; omega
  have ee : digitsVal [e, f] / 10 % 10 = digitVal e := by rw [hev]; omega
  have ef : digitsVal [e, f] % 10 = digitVal f := by rw [hev]; omega
  simp only [dateIso]
  rw [ea, eb, ec, ed, em, en, ee, ef,
    digitChar_digitVal a ha, digitChar_digitVal b hb, digitChar_digitVal c hc,
    digitChar_digitVal d hd, digitChar_digitVal m hm, digitChar_digitVal n hn,
    digitChar_digitVal e he, digitChar_digitVal f hf]

theorem parseDate_canonical (s : String) (dt : Date)
    (hp : parseDate s = some dt) (hlen : s.length = 10) : dateIso dt = s := by
  have hdl : s.data.length = 10 := hlen
  unfold parseDate at hp
  split at hp
  · rename_i a b c d m e heq
    rw [heq] at hdl
    simp at hdl
  · rename_i a b c d m e f heq
    rw [heq] at hdl
    simp at hdl
  · rename_i a b c d m n e heq
    rw [heq] at hdl
    simp at hdl
  · rename_i a b c d m n e f heq
    obtain ⟨hall, hdt, -, -, -, -, -⟩ := mkDate_eq _ _ _ _ hp
    have ha : a.isDigit = true := hall a (by simp)
    have hb : b.isDigit = true := hall b (by simp)
    have hc : c.isDigit = true := hall c (by simp)
    have hd : d.isDigit = true := hall d (by simp)
    have hm : m.isDigit = true := hall m (by simp)
    have hn : n.isDigit = true := hall n (by simp)
    have he : e.isDigit = true := hall e (by simp)
    have hf : f.isDigit = true := hall f (by simp)
    subst hdt
    rw [dateIso_of_digits a b c d m n e f ha hb hc hd hm hn he hf, ← heq,
      string_mk_data]
  · simp at hp

theorem parseDate_valid (s : String) (dt : Date) (hp : parseDate s = some dt) :
    ValidDate dt := by
  unfold parseDate at hp
  split at hp
  all_goals first
  | exact valid_of_mkDate _ _ _ _ _ _ _ hp
  | exact absurd hp (by simp)

theorem find?_filter_ne (l : Store) (sid : Nat) :
    (l.filter (fun s => !(s.student_id == sid))).find?
      (fun s => s.student_id == sid) = none := by
  rw [List.find?_eq_none]
  intro x hx
  have h2 := (List.mem_filter.mp hx).2
  simp at h2 ⊢
  exact h2

theorem le_foldr_max (l : List Nat) (n : Nat) (h : n ∈ l) : n ≤ l.foldr max 0 := by
  induction l with
  | nil => simp at h
  | cons a t ih =>
    rcases List.mem_cons.mp h with h | h
    · subst h
      exact le_max_left _ _
    · exact le_trans (ih h) (le_max_right _ _)

theorem lt_freshId (st : Store) (s : Student) (hs : s ∈ st) :
    s.student_id < freshId st := by
  have h1 : s.student_id ∈ st.map Student.student_id := List.mem_map_of_mem _ hs
  have h2 := le_foldr_max _ _ h1
  unfold freshId
  omega

theorem get_student_eq_found (sid : Nat) (st : Store) (s : Student) :
    get_student sid st = .found s ↔
      st.find? (fun t => t.student_id == sid) = some s := by
  unfold get_student
  cases h : st.find? (fun t => t.student_id == sid) <;> simp

theorem get_student_eq_notFound (sid : Nat) (st : Store) :
    get_student sid st = .notFound ↔
      st.find? (fun t => t.student_id == sid) = none := by
  unfold get_student
  cases h : st.find? (fun t => t.student_id == sid) <;> simp

theorem applyDob_ok (data : Payload) (s s' : Student)
    (h : applyDob data s = .ok s') :
    s'.first_name = s.first_name ∧ s'.last_name = s.last_name ∧
    s'.amount_due = s.amount_due ∧ s'.student_id = s.student_id ∧
    ((data.lookup "dob" = none ∧ s'.dob = s.dob) ∨
      ∃ ds, data.lookup "dob" = some (Json.str ds) ∧ parseDate ds = some s'.dob) := by
  unfold applyDob at h
  split at h
  · injection h with h'
    subst h'
    exact ⟨rfl, rfl, rfl, rfl, Or.inl ⟨by assumption, rfl⟩⟩
  · rename_i ds hds
    split at h
    · rename_i d hpd
      injection h with h'
      subst h'
      exact ⟨rfl, rfl, rfl, rfl, Or.inr ⟨ds, hds, hpd⟩⟩
    · exact absurd h (by simp)
  · exact absurd h (by simp)

theorem applyDob_error (data : Payload) (s : Student) (e : UpdateRes)
    (h : applyDob data s = .error e) : e = .invalidDate ∨ e = .storeError := by
  unfold applyDob at h
  split at h
  · exact absurd h (by simp)
  · split at h
    · exact absurd h (by simp)
    · injection h with h'
      exact Or.inl h'.symm
  · injection h with h'
    exact Or.inr h'.symm

theorem update_success (sid : Nat) (data : Payload) (st : Store) (s4 : Student)
    (st' : Store) (h : update_student sid (some data) st = (.updated s4, st')) :
    ∃ s, st.find? (fun t => t.student_id == sid) = some s ∧
      st' = st.map (fun t => if t.student_id == sid then s4 else t) ∧
      s4.student_id = s.student_id ∧
      s4.first_name = (data.lookup "first_name").getD s.first_name ∧
      s4.last_name = (data.lookup "last_name").getD s.last_name ∧
      s4.amount_due = (data.lookup "amount_due").getD s.amount_due ∧
      ((data.lookup "dob" = none ∧ s4.dob = s.dob) ∨
        (∃ ds, data.lookup "dob" = some (Json.str ds) ∧ parseDate ds = some s4.dob)) ∧
      s4.first_name ≠ Json.null ∧ s4.last_name ≠ Json.null ∧
      s4.amount_due ≠ Json.null := by
  unfold update_student at h
  cases hfind : st.find? (fun t => t.student_id == sid) with
  | none =>
    rw [hfind] at h
    exact absurd h (by simp)
  | some s =>
    rw [hfind] at h
    refine ⟨s, rfl, ?_⟩
    simp only at h
    by_cases hemp : data.isEmpty
    · rw [if_pos hemp] at h
      exact absurd h (by simp)
    · rw [if_neg hemp] at h
      cases hap : applyDob data { s with
          first_name := (data.lookup "first_name").getD s.first_name,
          last_name := (data.lookup "last_name").getD s.last_name } with
      | error e =>
        rw [hap] at h
        simp only at h
        rcases applyDob_error _ _ _ hap with he | he <;> subst he <;> simp at h
      | ok s3 =>
        rw [hap] at h
        simp only at h
        unfold commitRow at h
        split at h
        · exact absurd h (by simp)
        · rename_i hnn
          push_neg at hnn
          obtain ⟨hnn1, hnn2, hnn3⟩ := hnn
          have h1 := congrArg Prod.fst h
          have h2 := congrArg Prod.snd h
          simp only at h1 h2
          injection h1 with h1
          obtain ⟨hf3, hl3, ha3, hi3, hdob3⟩ := applyDob_ok _ _ _ hap
          subst h1
          simp only at hf3 hl3 ha3 hi3 hdob3
          refine ⟨h2.symm, ?_, ?_, ?_, ?_, ?_, ?_, ?_, ?_⟩
          · simp [hi3]
          · simp [hf3]
          · simp [hl3]
          · simp [ha3]
          · rcases hdob3 with ⟨hnone, hdeq⟩ | ⟨ds, hds, hpd⟩
            · exact Or.inl ⟨hnone, by simp [hdeq]⟩
            · exact Or.inr ⟨ds, hds, by simpa using hpd⟩
          · simpa using hnn1
          · simpa using hnn2
          · simpa using hnn3

theorem create_success (data : Payload) (st : Store) (s : Student) (st' : Store)
    (h : create_student (some data) st = (.created s, st')) :
    st' = st ++ [s] ∧ s.student_id = freshId st ∧
    data.lookup "first_name" = some s.first_name ∧ s.first_name ≠ Json.null ∧
    data.lookup "last_name" = some s.last_name ∧ s.last_name ≠ Json.null ∧
    data.lookup "amount_due" = some s.amount_due ∧ s.amount_due ≠ Json.null ∧
    ∃ ds, data.lookup "dob" = some (Json.str ds) ∧ parseDate ds = some s.dob := by
  unfold create_student at h
  simp only at h
  split at h
  · exact absurd h (by simp)
  · rename_i hval
    push_neg at hval
    obtain ⟨-, hk1, hk2, -, hk4⟩ := hval
    split at h
    · rename_i ds hds
      split at h
      · exact absurd h (by simp)
      · rename_i d hpd
        split at h
        · exact absurd h (by simp)
        · rename_i hnn
          push_neg at hnn
          obtain ⟨hnn1, hnn2, hnn3⟩ := hnn
          have h1 := congrArg Prod.fst h
          have h2 := congrArg Prod.snd h
          simp only at h1 h2
          injection h1 with h1
          subst h1
          obtain ⟨v1, hv1⟩ := Option.isSome_iff_exists.mp
            (show (data.lookup "first_name").isSome = true from hk1)
          obtain ⟨v2, hv2⟩ := Option.isSome_iff_exists.mp
            (show (data.lookup "last_name").isSome = true from hk2)
          obtain ⟨v4, hv4⟩ := Option.isSome_iff_exists.mp
            (show (data.lookup "amount_due").isSome = true from hk4)
          refine ⟨h2.symm, rfl, ?_, ?_, ?_, ?_, ?_, ?_, ds, hds, hpd⟩
          · simp [hv1]
          · simpa [hv1] using hnn1
          · simp [hv2]
          · simpa [hv2] using hnn2
          · simp [hv4]
          · simpa [hv4] using hnn3
    · exact absurd h (by simp)

theorem create_snd (body : Option Payload) (st : Store) :
    (create_student body st).snd = st ∨
    ∃ s, create_student body st = (.created s, st ++ [s]) := by
  cases body with
  | none => exact Or.inl rfl
  | some data =>
    unfold create_student
    simp only
    split
    · exact Or.inl rfl
    · split
      · split
        · exact Or.inl rfl
        · split
          · exact Or.inl rfl
          · exact Or.inr ⟨_, rfl⟩
      · exact Or.inl rfl

theorem string_data_inj (s t : String) (h : s.data = t.data) : s = t := by
  rw [← string_mk_data s, ← string_mk_data t, h]

theorem takeWhile_append_stop (q : Char → Bool) (a : List Char) (c : Char)
    (b : List Char) (ha : ∀ x ∈ a, q x = true) (hc : q c = false) :
    (a ++ c :: b).takeWhile q = a := by
  induction a with
  | nil => simp [List.takeWhile_cons, hc]
  | cons x t ih =>
    have hx : q x = true := ha x (by simp)
    simp only [List.cons_append, List.takeWhile_cons, hx, if_true]
    rw [ih (fun y hy => ha y (by simp [hy]))]

theorem dropWhile_dot (r : List Char) (h : ('.' : Char) ∈ r) :
    ∃ t, r.dropWhile (fun c => c != '.') = '.' :: t := by
  induction r with
  | nil => simp at h
  | cons x t ih =>
    by_cases hx : x = '.'
    · subst hx
      exact ⟨t, by simp [List.dropWhile_cons]⟩
    · have hx2 : ((fun c => c != '.') x) = true := by simp [hx]
      rcases List.mem_cons.mp h with he | he
      · exact absurd he.symm hx
      · obtain ⟨t2, ht2⟩ := ih he
        exact ⟨t2, by simp only [List.dropWhile_cons, hx2, if_true]; exact ht2⟩

theorem extAfterLastDot_decomposition (f : String)
    (h : f.data.contains '.' = true) :
    ∃ pre : List Char,
      f.data = pre ++ '.' :: (extAfterLastDot f).data ∧
      (extAfterLastDot f).data.contains '.' = false := by
  have hr : ('.' : Char) ∈ f.data.reverse := by
    rw [List.mem_reverse]
    simpa using h
  obtain ⟨t, ht⟩ := dropWhile_dot _ hr
  have hsplit : f.data.reverse.takeWhile (fun c => c != '.') ++ '.' :: t =
      f.data.reverse := by
    rw [← ht, List.takeWhile_append_dropWhile]
  refine ⟨t.reverse, ?_, ?_⟩
  · have h2 := congrArg List.reverse hsplit
    simp only [List.reverse_append, List.reverse_cons, List.reverse_reverse] at h2
    rw [← h2]
    simp [extAfterLastDot]
  · simp only [extAfterLastDot]
    apply Bool.eq_false_iff.mpr
    intro hc
    have hm : ('.' : Char) ∈
        (f.data.reverse.takeWhile (fun c => c != '.')).reverse := by
      simpa using hc
    have := List.mem_takeWhile_imp (List.mem_reverse.mp hm)
    simp at this

theorem extAfterLastDot_of_append (pre ext : List Char)
    (hext : ('.' : Char) ∉ ext) :
    extAfterLastDot (String.mk (pre ++ '.' :: ext)) = String.mk ext := by
  unfold extAfterLastDot
  congr 1
  show ((pre ++ '.' :: ext).reverse.takeWhile (fun c => c != '.')).reverse = ext
  have hrev : (pre ++ '.' :: ext).reverse = ext.reverse ++ '.' :: pre.reverse := by
    simp
  rw [hrev, takeWhile_append_stop _ _ _ _ ?_ (by simp), List.reverse_reverse]
  intro x hx
  have hmem : x ∈ ext := List.mem_reverse.mp hx
  simp only [bne_iff_ne, ne_eq]
  intro hxe
  exact hext (hxe ▸ hmem)

theorem allowed_file_iff (f : String) :
    allowed_file f = true ↔
      ∃ ext, ExtOf f ext ∧ ALLOWED_EXTENSIONS.contains (lowerStr ext) = true := by
  constructor
  · intro h
    unfold allowed_file at h
    rw [Bool.and_eq_true] at h
    obtain ⟨hdot, hlist⟩ := h
    obtain ⟨pre, hsplit, hnodot⟩ := extAfterLastDot_decomposition f hdot
    refine ⟨extAfterLastDot f, ⟨String.mk pre, ?_, hnodot⟩, hlist⟩
    apply string_data_inj
    rw [hsplit]
    simp [String.data_append]
  · rintro ⟨ext, ⟨pre, hfeq, hnodot⟩, hmem⟩
    subst hfeq
    have hdata : (pre ++ "." ++ ext).data = pre.data ++ '.' :: ext.data := by
      simp [String.data_append]
    unfold allowed_file
    rw [Bool.and_eq_true]
    refine ⟨?_, ?_⟩
    · rw [hdata]
      simp
    · have hmk : pre ++ "." ++ ext = String.mk (pre.data ++ '.' :: ext.data) :=
        string_data_inj _ _ (by rw [hdata])
      have hnd : ('.' : Char) ∉ ext.data := by
        intro hm
        rw [Bool.eq_false_iff] at hnodot
        exact hnodot (by simpa using hm)
      rw [hmk, extAfterLastDot_of_append _ _ hnd, string_mk_data]
      exact hmem

theorem create_inv (body : Option Payload) (st : Store) (hinv : StoreInv st) :
    StoreInv (create_student body st).snd := by
  rcases create_snd body st with heq | ⟨s, heq⟩
  · rw [heq]
    exact hinv
  · cases body with
    | none => simp [create_student] at heq
    | some data =>
      obtain ⟨-, hid, -, hfn, -, hln, -, han, ds, -, hpd⟩ :=
        create_success _ _ _ _ heq
      rw [heq]
      simp only
      constructor
      · unfold UniqueIds
        rw [List.map_append, List.nodup_append]
        refine ⟨hinv.1, by simp, ?_⟩
        intro x hx hx2
        rcases List.mem_map.mp hx with ⟨u, hu, hux⟩
        have hlt := lt_freshId st u hu
        simp only [List.map_cons, List.map_nil, List.mem_singleton] at hx2
        have : u.student_id = freshId st := by rw [hux, hx2, hid]
        omega
      · intro t ht
        rcases List.mem_append.mp ht with h | h
        · exact hinv.2 t h
        · rw [List.mem_singleton] at h
          subst h
          exact ⟨hfn, hln, han, parseDate_valid ds _ hpd⟩

theorem update_snd (sid : Nat) (body : Option Payload) (st : Store) :
    (update_student sid body st).snd = st ∨
    ∃ data s4, body = some data ∧
      update_student sid body st =
        (.updated s4, st.map (fun t => if t.student_id == sid then s4 else t)) := by
  cases body with
  | none =>
    left
    unfold update_student
    split <;> rfl
  | some data =>
    unfold update_student
    simp only
    split
    · exact Or.inl rfl
    · split
      · exact Or.inl rfl
      · split
        · exact Or.inl rfl
        · unfold commitRow
          split
          · exact Or.inl rfl
          · exact Or.inr ⟨data, _, rfl, rfl⟩

theorem map_replace_ids (st : Store) (sid : Nat) (s4 : Student)
    (h4 : s4.student_id = sid) :
    (st.map (fun t => if t.student_id == sid then s4 else t)).map
      Student.student_id = st.map Student.student_id := by
  rw [List.map_map]
  apply List.map_congr_left
  intro t ht
  by_cases hc : t.student_id = sid
  · simp [Function.comp, hc, h4]
  · simp [Function.comp, hc]

theorem update_ids (sid : Nat) (body : Option Payload) (st : Store) :
    (update_student sid body st).snd.map Student.student_id =
      st.map Student.student_id := by
  rcases update_snd sid body st with h | ⟨data, s4, hb, heq⟩
  · rw [h]
  · subst hb
    obtain ⟨s, hfind, -, hid, -⟩ := update_success sid data st s4 _ heq
    have hps := List.find?_some hfind
    have hsid : s.student_id = sid := by simpa using hps
    rw [heq]
    exact map_replace_ids st sid s4 (by rw [hid, hsid])

theorem update_inv (sid : Nat) (body : Option Payload) (st : Store)
    (hinv : StoreInv st) : StoreInv (update_student sid body st).snd := by
  rcases update_snd sid body st with h | ⟨data, s4, hb, heq⟩
  · rw [h]
    exact hinv
  · subst hb
    obtain ⟨s, hfind, -, hid, -, -, -, hdob, hn1, hn2, hn3⟩ :=
      update_success sid data st s4 _ heq
    have hmem : s ∈ st := List.mem_of_find?_eq_some hfind
    have hrow := hinv.2 s hmem
    have hrow4 : RowOk s4 := by
      refine ⟨hn1, hn2, hn3, ?_⟩
      rcases hdob with ⟨-, hdeq⟩ | ⟨ds, -, hpd⟩
      · exact hdeq ▸ hrow.2.2.2
      · exact parseDate_valid ds _ hpd
    rw [heq]
    simp only
    constructor
    · unfold UniqueIds
      have hps := List.find?_some hfind
      have hsid : s.student_id = sid := by simpa using hps
      rw [map_replace_ids st sid s4 (by rw [hid, hsid])]
      exact hinv.1
    · intro t ht
      rcases List.mem_map.mp ht with ⟨u, hu, hut⟩
      by_cases hc : u.student_id = sid
      · simp only [hc, beq_self_eq_true, if_true] at hut
        exact hut ▸ hrow4
      · simp only [beq_eq_false_iff_ne, ne_eq, hc, if_neg, not_false_eq_true,
          beq_iff_eq] at hut
        exact hut ▸ hinv.2 u hu

theorem delete_inv (sid : Nat) (st : Store) (hinv : StoreInv st) :
    StoreInv (delete_student sid st).snd := by
  unfold delete_student
  cases hfind : st.find? (fun t => t.student_id == sid) with
  | none => exact hinv
  | some s =>
    simp only
    constructor
    · exact List.Nodup.sublist (List.Sublist.map _ (List.filter_sublist st)) hinv.1
    · intro t ht
      exact hinv.2 t (List.mem_of_mem_filter ht)

/-! ### Claims -/

/-- Claim C4: Delete removes the record: after a successful Delete, Get on
that id returns NotFound (404) and a second Delete on the same id also
returns NotFound; Delete on an id that is not present returns NotFound. -/
theorem delete_removes_and_repeat_notFound (sid : Nat) (st st' st0 : Store)
    (h : delete_student sid st = (.deleted, st'))
    (h0 : get_student sid st0 = .notFound) :
    get_student sid st' = .notFound ∧
    (get_student sid st').status = 404 ∧
    delete_student sid st' = (.notFound, st') ∧
    (delete_student sid st').fst.status = 404 ∧
    delete_student sid st0 = (.notFound, st0) ∧
    (delete_student sid st0).fst.status = 404 := by
  have hgen : ∀ s1 : Store, get_student sid s1 = .notFound →
      delete_student sid s1 = (.notFound, s1) := by
    intro s1 h1
    rw [get_student_eq_notFound] at h1
    unfold delete_student
    rw [h1]
  unfold delete_student at h
  cases hfind : st.find? (fun t => t.student_id == sid) with
  | none =>
    rw [hfind] at h
    exact absurd h (by simp)
  | some s =>
    rw [hfind] at h
    simp only at h
    have h2 := congrArg Prod.snd h
    simp only at h2
    have hnf : get_student sid st' = .notFound := by
      rw [get_student_eq_notFound, ← h2]
      exact find?_filter_ne st sid
    refine ⟨hnf, by rw [hnf]; rfl, hgen st' hnf, ?_, hgen st0 h0, ?_⟩
    · rw [hgen st' hnf]
      rfl
    · rw [hgen st0 h0]
      rfl

/-- Witness for C4 at a one-row table and an empty table. -/
theorem delete_removes_witness :
    get_student 1
        (delete_student 1
          [⟨1, Json.str "A", Json.str "B", ⟨2000, 1, 2⟩, Json.num 0⟩]).snd =
      .notFound ∧
    delete_student 1 ([] : Store) = (.notFound, []) :=
  have happ := delete_removes_and_repeat_notFound 1
    [⟨1, Json.str "A", Json.str "B", ⟨2000, 1, 2⟩, Json.num 0⟩] [] []
    (by decide) (by decide)
  ⟨happ.1, happ.2.2.2.2.1⟩

/-- Claim C8: Update fails with NotFound (404) for every id not present, and
with NoInput (400) when the id exists but the payload is absent or empty;
in both failure cases the store is unchanged. -/
theorem update_notFound_and_noInput (sid : Nat) (st1 st2 : Store)
    (body : Option Payload) (s : Student)
    (h1 : get_student sid st1 = .notFound)
    (h2 : get_student sid st2 = .found s) :
    update_student sid body st1 = (.notFound, st1) ∧
    UpdateRes.status .notFound = 404 ∧
    update_student sid none st2 = (.noInput, st2) ∧
    update_student sid (some []) st2 = (.noInput, st2) ∧
    UpdateRes.status .noInput = 400 := by
  rw [get_student_eq_notFound] at h1
  rw [get_student_eq_found] at h2
  refine ⟨?_, rfl, ?_, ?_, rfl⟩
  · unfold update_student
    rw [h1]
  · unfold update_student
    rw [h2]
  · unfold update_student
    rw [h2]
    simp

/-- Witness for C8 at concrete stores. -/
theorem update_notFound_witness :
    update_student 2 (some [("amount_due", Json.num 3)]) ([] : Store) =
      (.notFound, []) ∧
    update_student 1 none
        [⟨1, Json.str "A", Json.str "B", ⟨2000, 1, 2⟩, Json.num 0⟩] =
      (.noInput, [⟨1, Json.str "A", Json.str "B", ⟨2000, 1, 2⟩, Json.num 0⟩]) :=
  have ha := update_notFound_and_noInput 2 [] [⟨2, Json.str "A", Json.str "B",
    ⟨2000, 1, 2⟩, Json.num 0⟩] (some [("amount_due", Json.num 3)])
    ⟨2, Json.str "A", Json.str "B", ⟨2000, 1, 2⟩, Json.num 0⟩ (by decide) (by decide)
  have hb := update_notFound_and_noInput 1 []
    [⟨1, Json.str "A", Json.str "B", ⟨2000, 1, 2⟩, Json.num 0⟩] none
    ⟨1, Json.str "A", Json.str "B", ⟨2000, 1, 2⟩, Json.num 0⟩ (by decide) (by decide)
  ⟨ha.1, hb.2.2.1⟩

/-- Claim C10: an Update whose payload is non-empty but contains none of the
four recognized keys is not rejected as NoInput: it succeeds with 200 and
returns the record unchanged. -/
theorem update_unrecognized_keys_ok (sid : Nat) (st : Store) (s : Student)
    (data : Payload)
    (hget : get_student sid st = .found s)
    (hne : data ≠ [])
    (hf : data.lookup "first_name" = none) (hl : data.lookup "last_name" = none)
    (hd : data.lookup "dob" = none) (ha : data.lookup "amount_due" = none)
    (hfn : s.first_name ≠ Json.null) (hln : s.last_name ≠ Json.null)
    (had : s.amount_due ≠ Json.null) :
    (update_student sid (some data) st).fst = .updated s ∧
    ((update_student sid (some data) st).fst).status = 200 := by
  rw [get_student_eq_found] at hget
  have hres : update_student sid (some data) st =
      (.updated s, st.map (fun t => if t.student_id == sid then s else t)) := by
    unfold update_student
    rw [hget]
    simp only
    rw [if_neg (by simpa using hne)]
    rw [hf, hl]
    simp only [Option.getD_none]
    unfold applyDob
    rw [hd]
    simp only
    rw [ha]
    simp only [Option.getD_none]
    unfold commitRow
    rw [if_neg (by simp [hfn, hln, had])]
  rw [hres]
  exact ⟨rfl, rfl⟩

/-- Witness for C10: a payload with only an unrecognized key. -/
theorem update_unrecognized_witness :
    (update_student 1 (some [("nickname", Json.str "Al")])
        [⟨1, Json.str "A", Json.str "B", ⟨2000, 1, 2⟩, Json.num 0⟩]).fst =
      .updated ⟨1, Json.str "A", Json.str "B", ⟨2000, 1, 2⟩, Json.num 0⟩ :=
  (update_unrecognized_keys_ok 1
    [⟨1, Json.str "A", Json.str "B", ⟨2000, 1, 2⟩, Json.num 0⟩]
    ⟨1, Json.str "A", Json.str "B", ⟨2000, 1, 2⟩, Json.num 0⟩
    [("nickname", Json.str "Al")] (by decide) (by decide) (by decide) (by decide)
    (by decide) (by decide) (by decide) (by decide) (by decide)).1

/-- Claim C1: Update applies only the fields present in the payload: each of
the four fields takes the payload value when its key is present and keeps
its prior value when omitted, and `student_id` is unchanged; in particular
updating only `amount_due` leaves the other fields unchanged. -/
theorem update_patch_semantics (sid : Nat) (st st' : Store) (s s4 : Student)
    (data : Payload)
    (hget : get_student sid st = .found s)
    (hupd : update_student sid (some data) st = (.updated s4, st')) :
    s4.student_id = s.student_id ∧
    s4.first_name = (data.lookup "first_name").getD s.first_name ∧
    s4.last_name = (data.lookup "last_name").getD s.last_name ∧
    s4.amount_due = (data.lookup "amount_due").getD s.amount_due ∧
    (data.lookup "dob" = none → s4.dob = s.dob) := by
  obtain ⟨s2, hfind, -, hid, hfn, hln, had, hdob, -⟩ :=
    update_success _ _ _ _ _ hupd
  rw [get_student_eq_found] at hget
  rw [hget] at hfind
  injection hfind with hfind
  subst hfind
  refine ⟨hid, hfn, hln, had, ?_⟩
  intro hnone
  rcases hdob with ⟨-, hdeq⟩ | ⟨ds, hds, -⟩
  · exact hdeq
  · rw [hnone] at hds
    exact absurd hds (by simp)

/-- Witness for C1: updating only `amount_due` keeps the other fields. -/
theorem update_patch_witness :
    (⟨1, Json.str "A", Json.str "B", ⟨2000, 1, 2⟩, Json.num 5⟩ :
        Student).student_id =
      (⟨1, Json.str "A", Json.str "B", ⟨2000, 1, 2⟩, Json.num 0⟩ :
        Student).student_id ∧
    (⟨1, Json.str "A", Json.str "B", ⟨2000, 1, 2⟩, Json.num 5⟩ :
        Student).first_name =
      ((([("amount_due", Json.num 5)] : Payload).lookup "first_name").getD
        (Json.str "A")) :=
  have happ := update_patch_semantics 1
    [⟨1, Json.str "A", Json.str "B", ⟨2000, 1, 2⟩, Json.num 0⟩]
    [⟨1, Json.str "A", Json.str "B", ⟨2000, 1, 2⟩, Json.num 5⟩]
    ⟨1, Json.str "A", Json.str "B", ⟨2000, 1, 2⟩, Json.num 0⟩
    ⟨1, Json.str "A", Json.str "B", ⟨2000, 1, 2⟩, Json.num 5⟩
    [("amount_due", Json.num 5)] (by decide) (by decide)
  ⟨happ.1, happ.2.1⟩

theorem create_dobsValid (body : Option Payload) (st : Store)
    (hdv : DobsValid st) : DobsValid (create_student body st).snd := by
  rcases create_snd body st with heq | ⟨s, heq⟩
  · rw [heq]
    exact hdv
  · cases body with
    | none => simp [create_student] at heq
    | some data =>
      obtain ⟨-, -, -, -, -, -, -, -, ds, -, hpd⟩ := create_success _ _ _ _ heq
      rw [heq]
      intro t ht
      rcases List.mem_append.mp ht with h | h
      · exact hdv t h
      · rw [List.mem_singleton] at h
        subst h
        exact parseDate_valid ds _ hpd

theorem update_dobsValid (sid : Nat) (body : Option Payload) (st : Store)
    (hdv : DobsValid st) : DobsValid (update_student sid body st).snd := by
  rcases update_snd sid body st with h | ⟨data, s4, hb, heq⟩
  · rw [h]
    exact hdv
  · subst hb
    obtain ⟨s, hfind, -, -, -, -, -, hdob, -⟩ := update_success _ _ _ _ _ heq
    have hv4 : ValidDate s4.dob := by
      rcases hdob with ⟨-, hdeq⟩ | ⟨ds, -, hpd⟩
      · exact hdeq ▸ hdv s (List.mem_of_find?_eq_some hfind)
      · exact parseDate_valid ds _ hpd
    rw [heq]
    intro t ht
    rcases List.mem_map.mp ht with ⟨u, hu, hut⟩
    by_cases hc : u.student_id = sid
    · simp only [hc, beq_self_eq_true, if_true] at hut
      exact hut ▸ hv4
    · simp only [beq_eq_false_iff_ne, ne_eq, hc, if_neg, not_false_eq_true,
        beq_iff_eq] at hut
      exact hut ▸ hdv u hu

/-- Claim C3: a `dob` string that does not parse as `YYYY-MM-DD` makes Create
and Update fail with InvalidDateFormat (400) leaving the store unchanged
(the updated record keeps its prior values), and no invalid date enters
storage: every operation preserves validity of all stored dates. -/
theorem dob_parse_failure_rejected (st : Store) (data : Payload) (ds : String)
    (sid : Nat) (s : Student) (body : Option Payload)
    (hds : data.lookup "dob" = some (Json.str ds))
    (hbad : parseDate ds = none)
    (hk1 : hasKey data "first_name" = true)
    (hk2 : hasKey data "last_name" = true)
    (hk4 : hasKey data "amount_due" = true)
    (hget : get_student sid st = .found s)
    (hdv : DobsValid st) :
    create_student (some data) st = (.invalidDate, st) ∧
    CreateRes.status .invalidDate = 400 ∧
    update_student sid (some data) st = (.invalidDate, st) ∧
    UpdateRes.status .invalidDate = 400 ∧
    DobsValid (create_student body st).snd ∧
    DobsValid (update_student sid body st).snd := by
  have hne : data ≠ [] := by
    intro h
    rw [h] at hds
    simp at hds
  refine ⟨?_, rfl, ?_, rfl, create_dobsValid body st hdv,
    update_dobsValid sid body st hdv⟩
  · unfold create_student
    simp only
    rw [if_neg (by
      push_neg
      exact ⟨by simpa using hne, hk1, hk2, by simp [hasKey, hds], hk4⟩)]
    rw [hds]
    simp only
    rw [hbad]
  · rw [get_student_eq_found] at hget
    unfold update_student
    rw [hget]
    simp only
    rw [if_neg (by simpa using hne)]
    unfold applyDob
    rw [hds]
    simp only
    rw [hbad]

/-- Witness for C3 at the spec's unparseable example `13-99-9999`. -/
theorem dob_parse_failure_witness :
    create_student (some [("first_name", Json.str "A"), ("last_name", Json.str "B"),
        ("dob", Json.str "13-99-9999"), ("amount_due", Json.num 1)])
        [⟨1, Json.str "A", Json.str "B", ⟨2000, 1, 2⟩, Json.num 0⟩] =
      (.invalidDate, [⟨1, Json.str "A", Json.str "B", ⟨2000, 1, 2⟩, Json.num 0⟩]) ∧
    update_student 1 (some [("first_name", Json.str "A"), ("last_name", Json.str "B"),
        ("dob", Json.str "13-99-9999"), ("amount_due", Json.num 1)])
        [⟨1, Json.str "A", Json.str "B", ⟨2000, 1, 2⟩, Json.num 0⟩] =
      (.invalidDate, [⟨1, Json.str "A", Json.str "B", ⟨2000, 1, 2⟩, Json.num 0⟩]) :=
  have happ := dob_parse_failure_rejected
    [⟨1, Json.str "A", Json.str "B", ⟨2000, 1, 2⟩, Json.num 0⟩]
    [("first_name", Json.str "A"), ("last_name", Json.str "B"),
      ("dob", Json.str "13-99-9999"), ("amount_due", Json.num 1)]
    "13-99-9999" 1 ⟨1, Json.str "A", Json.str "B", ⟨2000, 1, 2⟩, Json.num 0⟩ none
    (by decide) (by decide) (by decide) (by decide) (by decide) (by decide)
    (by decide)
  ⟨happ.1, happ.2.2.1⟩

/-- Claim C2 counterexample: a payload whose `first_name` is JSON `null`
passes the handler's validation (the request does not fail with
MissingField/400 — it reaches the store and fails there with a 500), so
create does not validate that the fields are non-null. -/
theorem create_null_passes_validation :
    create_student (some [("first_name", Json.null), ("last_name", Json.str "B"),
        ("dob", Json.str "2000-01-02"), ("amount_due", Json.num 1)]) [] =
      (.storeError, []) ∧
    ([("first_name", Json.null), ("last_name", Json.str "B"),
        ("dob", Json.str "2000-01-02"), ("amount_due", Json.num 1)] :
        Payload).lookup "first_name" = some Json.null ∧
    CreateRes.status .storeError = 500 ∧ CreateRes.status .missingField = 400 := by
  refine ⟨by decide, by decide, rfl, rfl⟩

/-- Claim C2 amended: Create's validation checks only key presence: it
fails with MissingField (400) exactly when the body is missing or empty or
one of the four keys is absent, leaving the store unchanged; a request
passing validation has all four keys present, but their values may still
be `null`. -/
theorem create_validation_is_presence_only (body : Option Payload) (st : Store) :
    ((create_student body st).fst = .missingField ↔
      body = none ∨ ∃ data, body = some data ∧ (data.isEmpty = true ∨
        hasKey data "first_name" = false ∨ hasKey data "last_name" = false ∨
        hasKey data "dob" = false ∨ hasKey data "amount_due" = false)) ∧
    ((create_student body st).fst = .missingField →
      (create_student body st).snd = st) ∧
    CreateRes.status .missingField = 400 := by
  refine ⟨?_, ?_, rfl⟩
  · cases body with
    | none => simp [create_student]
    | some data =>
      unfold create_student
      simp only
      split
      · rename_i hcond
        constructor
        · intro _
          right
          refine ⟨data, rfl, ?_⟩
          rcases hcond with h | h | h | h | h
          · exact Or.inl h
          · exact Or.inr (Or.inl (by simpa using h))
          · exact Or.inr (Or.inr (Or.inl (by simpa using h)))
          · exact Or.inr (Or.inr (Or.inr (Or.inl (by simpa using h))))
          · exact Or.inr (Or.inr (Or.inr (Or.inr (by simpa using h))))
        · intro _
          rfl
      · rename_i hcond
        push_neg at hcond
        obtain ⟨he, h1, h2, h3, h4⟩ := hcond
        constructor
        · intro hfst
          exfalso
          split at hfst
          · split at hfst
            · simp at hfst
            · split at hfst
              · simp at hfst
              · simp at hfst
          · simp at hfst
        · rintro (hnone | ⟨data2, hdata2, hcases⟩)
          · exact absurd hnone (by simp)
          · injection hdata2 with hd
            subst hd
            rcases hcases with h | h | h | h | h <;> simp_all
  · intro hfst
    rcases create_snd body st with h | ⟨s, h⟩
    · exact h
    · rw [h] at hfst
      simp at hfst

/-- Witness for the amended C2: an empty body is rejected as MissingField. -/
theorem create_validation_witness :
    (create_student (some []) ([] : Store)).fst = .missingField :=
  (create_validation_is_presence_only (some []) []).1.mpr
    (Or.inr ⟨[], rfl, Or.inl rfl⟩)

/-- Claim C7 counterexample: a record with an empty `first_name` is accepted
by create and becomes readable, so the "non-empty text" invariant claimed
for `first_name`/`last_name` does not hold. -/
theorem create_empty_name_accepted :
    create_student (some [("first_name", Json.str ""), ("last_name", Json.str "Doe"),
        ("dob", Json.str "2000-01-02"), ("amount_due", Json.num 0)]) [] =
      (.created ⟨1, Json.str "", Json.str "Doe", ⟨2000, 1, 2⟩, Json.num 0⟩,
        [⟨1, Json.str "", Json.str "Doe", ⟨2000, 1, 2⟩, Json.num 0⟩]) ∧
    get_student 1 [⟨1, Json.str "", Json.str "Doe", ⟨2000, 1, 2⟩, Json.num 0⟩] =
      .found ⟨1, Json.str "", Json.str "Doe", ⟨2000, 1, 2⟩, Json.num 0⟩ := by
  refine ⟨by decide, by decide⟩

/-- Claim C7 amended: the invariants the code maintains: `student_id` is
unique among stored records and stable under update (the multiset of ids is
unchanged), and every readable row has non-null `first_name`, `last_name`,
`amount_due` and a date that passed the parser's range checks — but
nothing forces the name fields to be non-empty (or even strings). -/
theorem store_invariants_preserved (sid : Nat) (body : Option Payload)
    (st : Store) (hinv : StoreInv st) :
    StoreInv (create_student body st).snd ∧
    StoreInv (update_student sid body st).snd ∧
    StoreInv (delete_student sid st).snd ∧
    (update_student sid body st).snd.map Student.student_id =
      st.map Student.student_id :=
  ⟨create_inv body st hinv, update_inv sid body st hinv, delete_inv sid st hinv,
    update_ids sid body st⟩

/-- Witness for the amended C7 at a concrete one-row store. -/
theorem store_invariants_witness :
    StoreInv (create_student
      (some [("first_name", Json.str "A"), ("last_name", Json.str "B"),
        ("dob", Json.str "2001-05-09"), ("amount_due", Json.num 2)])
      [⟨1, Json.str "X", Json.str "Y", ⟨1999, 12, 31⟩, Json.num 1⟩]).snd :=
  (store_invariants_preserved 1
    (some [("first_name", Json.str "A"), ("last_name", Json.str "B"),
      ("dob", Json.str "2001-05-09"), ("amount_due", Json.num 2)])
    [⟨1, Json.str "X", Json.str "Y", ⟨1999, 12, 31⟩, Json.num 1⟩]
    (by decide)).1

/-- Claim C6: Upload fails with NoFilePart (400) without a `file` field, with
NoFilename (400) on an empty filename, and with InvalidFileType (400)
exactly when the filename has no dot-separated extension or its extension,
lower-cased, is not in {png, jpg, jpeg, gif}; `photo.png` is accepted and
`photo.exe` rejected. -/
theorem upload_extension_validation (file : FilePart) (hne : file.filename ≠ "") :
    upload_file none = .noFilePart ∧ UploadRes.status .noFilePart = 400 ∧
    upload_file (some ⟨"", file.content⟩) = .noFilename ∧
    UploadRes.status .noFilename = 400 ∧
    (upload_file (some file) = .invalidType ↔
      ¬ ∃ ext, ExtOf file.filename ext ∧
        ALLOWED_EXTENSIONS.contains (lowerStr ext) = true) ∧
    UploadRes.status .invalidType = 400 ∧
    upload_file (some ⟨"photo.png", file.content⟩) =
      .saved (path_join "uploads" "photo.png") file.content ∧
    UploadRes.status (.saved (path_join "uploads" "photo.png") file.content) =
      200 ∧
    upload_file (some ⟨"photo.exe", file.content⟩) = .invalidType := by
  refine ⟨rfl, rfl, rfl, rfl, ?_, rfl, ?_, rfl, ?_⟩
  · by_cases hall : allowed_file file.filename = true
    · have hres : upload_file (some file) =
          .saved (path_join "uploads" file.filename) file.content := by
        unfold upload_file
        simp only
        rw [if_neg hne, if_pos hall]
      rw [hres]
      constructor
      · intro hcontra
        simp at hcontra
      · intro hnex
        exact ((hnex ((allowed_file_iff file.filename).mp hall))).elim
    · have hres : upload_file (some file) = .invalidType := by
        unfold upload_file
        simp only
        rw [if_neg hne, if_neg hall]
      rw [hres]
      constructor
      · intro _ hex
        exact hall ((allowed_file_iff file.filename).mpr hex)
      · intro _
        rfl
  · unfold upload_file
    simp only
    rw [if_neg (show ¬("photo.png" : String) = "" from by decide),
      if_pos (show allowed_file "photo.png" = true from by decide)]
  · unfold upload_file
    simp only
    rw [if_neg (show ¬("photo.exe" : String) = "" from by decide),
      if_neg (show ¬allowed_file "photo.exe" = true from by decide)]

/-- Witness for C6 at the spec's example filenames. -/
theorem upload_extension_witness :
    upload_file (some ⟨"photo.exe", [1]⟩) = .invalidType ∧
    upload_file (some ⟨"photo.png", [1]⟩) =
      .saved (path_join "uploads" "photo.png") [1] :=
  have happ := upload_extension_validation ⟨"photo.exe", [1]⟩ (by decide)
  ⟨happ.2.2.2.2.2.2.2.2, happ.2.2.2.2.2.2.1⟩

/-- Claim C9 counterexample: an accepted upload whose client-supplied
filename is absolute is written to that absolute path, which does not lie
under the `uploads` directory; the claim that the written path always lies
under the upload directory is false. -/
theorem upload_escapes_upload_dir :
    upload_file (some ⟨"/evil.png", [7]⟩) = .saved "/evil.png" [7] ∧
    (UploadRes.saved "/evil.png" ([7] : List Nat)).status = 200 ∧
    ¬ ∃ r : String, "/evil.png" = "uploads" ++ "/" ++ r := by
  refine ⟨by decide, rfl, ?_⟩
  rintro ⟨r, hr⟩
  have hd := congrArg String.data hr
  simp [String.data_append] at hd

/-- Claim C9 amended: an accepted upload is written with HTTP 200 to
`os.path.join('uploads', filename)`: for a filename not starting with `/`
this is `uploads/<filename>`, but an absolute filename replaces the
directory entirely, so the written path need not lie under the upload
directory. -/
theorem upload_saved_path (file : FilePart) (hne : file.filename ≠ "")
    (hall : allowed_file file.filename = true) :
    upload_file (some file) =
      .saved (path_join "uploads" file.filename) file.content ∧
    (upload_file (some file)).status = 200 ∧
    (file.filename.data.head? ≠ some '/' →
      path_join "uploads" file.filename = "uploads/" ++ file.filename) ∧
    (file.filename.data.head? = some '/' →
      path_join "uploads" file.filename = file.filename) := by
  have hres : upload_file (some file) =
      .saved (path_join "uploads" file.filename) file.content := by
    unfold upload_file
    simp only
    rw [if_neg hne, if_pos hall]
  refine ⟨hres, by rw [hres]; rfl, ?_, ?_⟩
  · intro hrel
    unfold path_join
    rw [if_neg hrel, if_neg (by decide)]
    rw [show ("uploads" : String) ++ "/" = "uploads/" from by decide]
  · intro habs
    unfold path_join
    rw [if_pos habs]

/-- Witness for the amended C9 at a concrete accepted upload. -/
theorem upload_saved_path_witness :
    upload_file (some ⟨"pic.jpg", [1, 2]⟩) =
      .saved (path_join "uploads" "pic.jpg") [1, 2] ∧
    path_join "uploads" "pic.jpg" = "uploads/" ++ "pic.jpg" :=
  have happ := upload_saved_path ⟨"pic.jpg", [1, 2]⟩ (by decide) (by decide)
  ⟨happ.1, happ.2.2.1 (by decide)⟩

theorem create_good (data : Payload) (st : Store) (hgood : GoodCreate data) :
    ∃ s : Student, create_student (some data) st = (.created s, st ++ [s]) ∧
      RoundTrips s.to_dict data := by
  obtain ⟨⟨ds, d, hds, hpd, hlen⟩, ⟨v1, hv1, hn1⟩, ⟨v2, hv2, hn2⟩,
    ⟨v4, hv4, hn4⟩⟩ := hgood
  have hne : data ≠ [] := by
    intro h
    rw [h] at hds
    simp at hds
  have hres : create_student (some data) st =
      (.created ⟨freshId st, v1, v2, d, v4⟩,
        st ++ [⟨freshId st, v1, v2, d, v4⟩]) := by
    unfold create_student
    simp only
    rw [if_neg (by
      push_neg
      exact ⟨by simpa using hne, by simp [hasKey, hv1], by simp [hasKey, hv2],
        by simp [hasKey, hds], by simp [hasKey, hv4]⟩)]
    rw [hds]
    simp only
    rw [hpd]
    simp only
    rw [hv1, hv2, hv4]
    simp only [Option.getD_some]
    rw [if_neg (by simp [hn1, hn2, hn4])]
  refine ⟨_, hres, ?_, ?_, ?_, ?_⟩
  · rw [hv1]
    rfl
  · rw [hv2]
    rfl
  · rw [hds]
    show some (Json.str (dateIso d)) = some (Json.str ds)
    rw [parseDate_canonical ds d hpd hlen]
  · rw [hv4]
    rfl

theorem createMany_roundtrip (ps : List Payload) (st : Store)
    (h : ∀ p ∈ ps, GoodCreate p) :
    ∃ recs, createMany ps st = st ++ recs ∧
      List.Forall₂ (fun r p => RoundTrips r.to_dict p) recs ps := by
  induction ps generalizing st with
  | nil => exact ⟨[], by simp [createMany], List.Forall₂.nil⟩
  | cons p ps ih =>
    obtain ⟨s, hs, hrt⟩ := create_good p st (h p (by simp))
    have step : createMany (p :: ps) st = createMany ps (st ++ [s]) := by
      simp only [createMany, List.foldl_cons, hs]
    obtain ⟨recs, hrecs, hall⟩ := ih (st ++ [s]) (fun q hq => h q (by simp [hq]))
    refine ⟨s :: recs, ?_, List.Forall₂.cons hrt hall⟩
    rw [step, hrecs, List.append_assoc]
    rfl

/-- Claim C5: listing after creating N records (each with the four fields
supplied, non-null, and a canonical dob string) returns exactly N entries,
each round-tripping the supplied fields, `dob` as the same string; on an
empty store List returns the empty sequence. -/
theorem list_returns_all_roundtrip (ps : List Payload)
    (h : ∀ p ∈ ps, GoodCreate p) :
    (get_students (createMany ps [])).length = ps.length ∧
    List.Forall₂ RoundTrips (get_students (createMany ps [])) ps ∧
    get_students [] = [] := by
  obtain ⟨recs, hrecs, hall⟩ := createMany_roundtrip ps [] h
  rw [hrecs]
  unfold get_students
  simp only [List.nil_append]
  refine ⟨?_, ?_, rfl⟩
  · rw [List.length_map]
    exact hall.length_eq
  · exact List.forall₂_map_left_iff.mpr hall

/-- Witness for C5 at a one-payload creation sequence. -/
theorem list_roundtrip_witness :
    (get_students (createMany [[("first_name", Json.str "A"),
        ("last_name", Json.str "B"), ("dob", Json.str "2001-05-09"),
        ("amount_due", Json.num 2)]] [])).length = 1 :=
  (list_returns_all_roundtrip
    [[("first_name", Json.str "A"), ("last_name", Json.str "B"),
      ("dob", Json.str "2001-05-09"), ("amount_due", Json.num 2)]]
    (by
      intro p hp
      rw [List.mem_singleton] at hp
      subst hp
      unfold GoodCreate
      exact ⟨⟨"2001-05-09", ⟨2001, 5, 9⟩, by decide, by decide, by decide⟩,
        ⟨Json.str "A", by decide, by decide⟩,
        ⟨Json.str "B", by decide, by decide⟩,
        ⟨Json.num 2, by decide, by decide⟩⟩)).1

example : parseDate "2001-05-09" = some ⟨2001, 5, 9⟩ := by decide
example : parseDate "2020-2-29" = some ⟨2020, 2, 29⟩ := by decide
example : parseDate "2021-02-29" = none := by decide
example : parseDate "13-99-9999" = none := by decide
example : parseDate "2021-13-01" = none := by decide
example : dateIso ⟨2001, 5, 9⟩ = "2001-05-09" := by decide
example : allowed_file "photo.png" = true := by decide
example : allowed_file "photo.exe" = false := by decide
example : allowed_file "PHOTO.PNG" = true := by decide
example : allowed_file "photo" = false := by decide
example : path_join "uploads" "a.png" = "uploads/a.png" := by decide
example : path_join "uploads" "/etc/x.png" = "/etc/x.png" := by decide
